import Mathlib

/-!
Shallow embedding of `src/agl_to_nem12.py` (AGL MyUsageData CSV → NEM12
converter) and verification of its specification claims.

Conventions of the embedding:
* Python strings are modelled as Lean `String`/`List Char`; absent CSV cells
  (`row.get(...) = None`) as `Option String`.
* Python floats are modelled as exact decimal fractions (`Dec`); `float(...)`
  parsing is modelled on plain decimal literals (optional sign, digits,
  optional fractional part), which covers every value form the program's
  data uses; `f"{v:.3f}"` is modelled with round-half-even at three decimals.
* `datetime.strptime(s, '%d/%m/%Y %I:%M:%S %p')` is modelled field by field
  with the same numeric ranges and calendar validation.
* The writer's record 100 carries the wall-clock generation timestamp and is
  outside the pure model; records 200/300/900 are modelled.
-/

namespace AglToNem12

/-- Configuration constants from the source header. -/
def DEFAULT_UOM : String := "kWh"

/-- Default NEM12 quality code used when the AGL flag is unknown or missing. -/
def DEFAULT_QUALITY : String := "E"

/-- The fixed AGL-flag → NEM12-quality lookup table (`QUALITY_MAP`). -/
def QUALITY_MAP : List (String × String) :=
  [("A", "A"), ("F", "F"), ("E", "E"), ("S", "S"), ("N", "N")]

/-- `QUALITY_MAP.get(q, DEFAULT_QUALITY)`. -/
def lookupQuality (q : String) : String :=
  (QUALITY_MAP.lookup q).getD DEFAULT_QUALITY

/-- Decimal digits with explicit fuel (so that the definition is structural
and evaluates inside the kernel); `natDigits` supplies sufficient fuel. -/
def natDigitsGo : Nat → Nat → List Char
  | 0, _ => []
  | fuel + 1, n =>
    if n < 10 then [Nat.digitChar n]
    else natDigitsGo fuel (n / 10) ++ [Nat.digitChar (n % 10)]

/-- Decimal digits of a natural number, most significant first. -/
def natDigits (n : Nat) : List Char := natDigitsGo (n + 1) n

/-- Decimal rendering of a natural number (as Python prints ints). -/
def natStr (n : Nat) : String := ⟨natDigits n⟩

/-- Left-pad a digit list with zeros to width `k`. -/
def padLeftZeros (k : Nat) (l : List Char) : List Char :=
  List.replicate (k - l.length) '0' ++ l

/-- `date.strftime('%Y%m%d')` on the packed date code `y*10000 + m*100 + d`. -/
def format_nem12_date (dc : Nat) : String := ⟨padLeftZeros 8 (natDigits dc)⟩

/-- An exact decimal value `num / den` (`den` a positive power of ten as
built by the value parser). The program stores and formats values but never
computes with them, so this unnormalized pair models the Python float
exactly on the decimal literals the input carries. -/
structure Dec where
  num : Int
  den : Nat
deriving DecidableEq, Repr

/-- The substituted value `0.0`. -/
def Dec.zero : Dec := ⟨0, 1⟩

/-- The rational a `Dec` denotes. -/
def Dec.toRat (d : Dec) : ℚ := (d.num : ℚ) / (d.den : ℚ)

/-- `f"{v:.3f}"`: round to three decimals (half to even, Python's rule for
float formatting) and render with exactly three digits after the point. -/
def format3 (d : Dec) : String :=
  let t : Int := d.num * 1000
  let dn : Int := (d.den : Int)
  let f : Int := t.fdiv dn
  let r : Int := t - f * dn
  let n : Int :=
    if 2 * r < dn then f
    else if dn < 2 * r then f + 1
    else if f % 2 = 0 then f else f + 1
  let sign : List Char := if n < 0 ∨ (n = 0 ∧ d.num < 0) then ['-'] else []
  ⟨sign ++ natDigits (n.natAbs / 1000) ++
    '.' :: padLeftZeros 3 (natDigits (n.natAbs % 1000))⟩

/-- Numeric value of a digit list, most significant first. -/
def digitsVal (ds : List Char) : Nat :=
  ds.foldl (fun a c => a * 10 + (c.toNat - '0'.toNat)) 0

/-- Unsigned decimal literal: `digits`, `digits.`, `digits.digits` or
`.digits`. -/
def parseUnsigned (cs : List Char) : Option Dec :=
  let ip := cs.takeWhile Char.isDigit
  let rest := cs.dropWhile Char.isDigit
  match rest with
  | [] => if ip.isEmpty then none else some ⟨digitsVal ip, 1⟩
  | '.' :: rest2 =>
    let fp := rest2.takeWhile Char.isDigit
    let rest3 := rest2.dropWhile Char.isDigit
    if rest3.isEmpty then
      if ip.isEmpty && fp.isEmpty then none
      else some ⟨digitsVal ip * 10 ^ fp.length + digitsVal fp, 10 ^ fp.length⟩
    else none
  | _ => none

/-- Models Python `float(s)` on plain decimal literals: `none` models a
`ValueError` (the source substitutes 0.0 and quality `'N'` in that case). -/
def parseFloat (s : String) : Option Dec :=
  match s.toList with
  | '-' :: cs => (parseUnsigned cs).map (fun d => ⟨-d.num, d.den⟩)
  | '+' :: cs => parseUnsigned cs
  | cs => parseUnsigned cs

/-- `determine_day_quality`: first match in the fixed order N, S, E, F, A over
the set of non-empty per-interval codes; `DEFAULT_QUALITY` when none. -/
def determine_day_quality (interval_qualities : List String) : String :=
  let present := interval_qualities.filter (fun q => q != "")
  if present = [] then DEFAULT_QUALITY
  else if "N" ∈ present then "N"
  else if "S" ∈ present then "S"
  else if "E" ∈ present then "E"
  else if "F" ∈ present then "F"
  else if "A" ∈ present then "A"
  else DEFAULT_QUALITY

/-- The substring after the last `'#'` (`register_code.split('#')[-1]`). -/
def afterLastHash (rc : List Char) : List Char :=
  (rc.reverse.takeWhile (fun c => c != '#')).reverse

/-- The source's canonical-suffix regex `^[EBVQKNeqvkn]\d+$` (note: the
character class has no lowercase `b`). -/
def standardSuffixPattern (sfx : List Char) : Bool :=
  match sfx with
  | c :: rest =>
    (['E', 'B', 'V', 'Q', 'K', 'N', 'e', 'q', 'v', 'k', 'n'].contains c)
      && !rest.isEmpty && rest.all Char.isDigit
  | [] => false

/-- `get_suffix_from_register`: `none` models the `(None, False)` returns the
caller skips on. -/
def get_suffix_from_register (rc : List Char) : Option (List Char × Bool) :=
  if rc = [] then none
  else if rc.contains '#' then
    let sfx := afterLastHash rc
    if sfx = [] then none else some (sfx, standardSuffixPattern sfx)
  else none

/-- `p.isPrefixOf l` on char lists, mirroring `str.startswith`. -/
def listStartsWith : List Char → List Char → Bool
  | [], _ => true
  | _ :: _, [] => false
  | a :: ps, b :: ls => a == b && listStartsWith ps ls

/-- Stream classification from the suffix (`mdm_data_stream_id` block of the
source: upper-case the suffix, then test its leading character). -/
def mdm_data_stream_id (sfx : List Char) : String :=
  let u := sfx.map Char.toUpper
  if listStartsWith ['B'] u then "GENERATION"
  else if listStartsWith ['E'] u || listStartsWith ['V'] u then "CONSUMPTION"
  else if listStartsWith ['Q'] u || listStartsWith ['K'] u then "REACTIVE"
  else "INTERVAL"

/-- A parsed local timestamp (what `datetime.strptime` yields, to the second). -/
structure DateTime where
  year : Nat
  month : Nat
  day : Nat
  hour : Nat
  minute : Nat
  second : Nat
deriving DecidableEq, Repr

/-- Up to `k` leading decimal digits of the input, with the remainder. -/
def takeDigitsUpTo : Nat → List Char → (List Char × List Char)
  | 0, cs => ([], cs)
  | _ + 1, [] => ([], [])
  | k + 1, c :: cs =>
    if c.isDigit then
      let p := takeDigitsUpTo k cs
      (c :: p.1, p.2)
    else ([], c :: cs)

/-- A one-or-two digit field with an inclusive numeric range, as the
`strptime` field patterns (`%d`, `%m`, `%I`, `%M`, `%S`) accept. -/
def parseNum2 (lo hi : Nat) (cs : List Char) : Option (Nat × List Char) :=
  let p := takeDigitsUpTo 2 cs
  if p.1.isEmpty then none
  else
    let v := digitsVal p.1
    if lo ≤ v ∧ v ≤ hi then some (v, p.2) else none

/-- The exactly-four-digit `%Y` field. -/
def parseNum4 (cs : List Char) : Option (Nat × List Char) :=
  let p := takeDigitsUpTo 4 cs
  if p.1.length = 4 then some (digitsVal p.1, p.2) else none

/-- One expected literal character of the format. -/
def expectChar (c : Char) (cs : List Char) : Option (List Char) :=
  match cs with
  | x :: rest => if x == c then some rest else none
  | [] => none

/-- One-or-more whitespace characters (a space in a `strptime` format). -/
def skipSpaces1 (cs : List Char) : Option (List Char) :=
  match cs with
  | x :: rest =>
    if x.isWhitespace then some (rest.dropWhile Char.isWhitespace) else none
  | [] => none

/-- Gregorian leap-year rule. -/
def isLeapYear (y : Nat) : Bool :=
  y % 4 == 0 && (y % 100 != 0 || y % 400 == 0)

/-- Length of a calendar month. -/
def daysInMonth (y m : Nat) : Nat :=
  if m = 2 then (if isLeapYear y then 29 else 28)
  else if m = 4 ∨ m = 6 ∨ m = 9 ∨ m = 11 then 30
  else 31

/-- The `%p` field, case-insensitive; `true` means PM. -/
def parseAmPm (cs : List Char) : Option (Bool × List Char) :=
  match cs with
  | a :: b :: rest =>
    if b.toUpper == 'M' then
      if a.toUpper == 'A' then some (false, rest)
      else if a.toUpper == 'P' then some (true, rest)
      else none
    else none
  | _ => none

/-- The `'%d/%m/%Y %I:%M:%S %p'` format over characters: fields in range, the
whole input consumed, and the resulting calendar date valid (as the
`datetime` constructor enforces). -/
def parseAglChars (cs : List Char) : Option DateTime := do
  let (d, cs) ← parseNum2 1 31 cs
  let cs ← expectChar '/' cs
  let (m, cs) ← parseNum2 1 12 cs
  let cs ← expectChar '/' cs
  let (y, cs) ← parseNum4 cs
  let cs ← skipSpaces1 cs
  let (h12, cs) ← parseNum2 1 12 cs
  let cs ← expectChar ':' cs
  let (mi, cs) ← parseNum2 0 59 cs
  let cs ← expectChar ':' cs
  let (sec, cs) ← parseNum2 0 59 cs
  let cs ← skipSpaces1 cs
  let (pm, cs) ← parseAmPm cs
  if cs ≠ [] then none
  else if y = 0 then none
  else if daysInMonth y m < d then none
  else
    let h := if pm then (if h12 = 12 then 12 else h12 + 12)
             else (if h12 = 12 then 0 else h12)
    some ⟨y, m, d, h, mi, sec⟩

/-- `parse_agl_datetime`: `None` on the empty string or a `ValueError`. -/
def parse_agl_datetime (s : String) : Option DateTime :=
  if s = "" then none else parseAglChars s.toList

/-- `get_interval_index` (the `dt_obj is None` case is handled at the caller's
match on `parse_agl_datetime`). -/
def get_interval_index (dt : DateTime) (intervalLength intervalsPerDay : Nat) :
    Option Nat :=
  if intervalLength = 0 then none
  else
    let idx := (dt.hour * 60 + dt.minute) / intervalLength
    if idx < intervalsPerDay then some idx else none

/-- Packed date code `y*10000 + m*100 + d`; its numeric order is the order of
`date` objects, and `format_nem12_date` renders it as `%Y%m%d`. -/
def dateCodeOf (dt : DateTime) : Nat :=
  dt.year * 10000 + dt.month * 100 + dt.day

/-- One CSV row as `csv.DictReader` hands it over: `none` is a missing cell. -/
structure Row where
  nmi : Option String
  registerCode : Option String
  startDate : Option String
  profileReadValue : Option String
  qualityFlag : Option String
  deviceNumber : Option String
deriving DecidableEq, Repr

/-- Python truthiness of an optional string field. -/
def fieldTruthy : Option String → Bool
  | none => false
  | some s => !s.isEmpty

/-- The row guard `all([nmi, register_code, start_date_str,
value_str is not None, quality_agl, device_num])`. -/
def requiredFieldsOk (r : Row) : Bool :=
  fieldTruthy r.nmi && fieldTruthy r.registerCode && fieldTruthy r.startDate
    && !r.profileReadValue.isNone && fieldTruthy r.qualityFlag
    && fieldTruthy r.deviceNumber

/-- What the reader writes into the bucket for one accepted row. -/
structure ProcessedReading where
  nmi : String
  suffix : String
  isStandardPattern : Bool
  dateCode : Nat
  intervalIndex : Nat
  value : Dec
  quality : String
  device : String
deriving DecidableEq, Repr

/-- The per-row reader logic (source lines 84-106): `none` means the row is
skipped (the skip counter is incremented and processing continues). -/
def processRow (L N : Nat) (r : Row) : Option ProcessedReading :=
  if !requiredFieldsOk r then none
  else
    match parse_agl_datetime (r.startDate.getD "") with
    | none => none
    | some dt =>
      match get_interval_index dt L N with
      | none => none
      | some idx =>
        match get_suffix_from_register (r.registerCode.getD "").toList with
        | none => none
        | some (sfx, isStd) =>
          let vq : Dec × String :=
            match parseFloat (r.profileReadValue.getD "") with
            | some v => (v, lookupQuality (r.qualityFlag.getD ""))
            | none => (Dec.zero, "N")
          some { nmi := r.nmi.getD "", suffix := ⟨sfx⟩,
                 isStandardPattern := isStd, dateCode := dateCodeOf dt,
                 intervalIndex := idx, value := vq.1, quality := vq.2,
                 device := r.deviceNumber.getD "" }

/-- One day's paired fixed-length slot arrays (`intervals` / `quality`). -/
structure DayData where
  intervals : List (Option Dec)
  quality : List String
deriving DecidableEq, Repr

/-- The `defaultdict` initialiser: `[None]*N` values, `['']*N` qualities. -/
def freshDay (n : Nat) : DayData :=
  ⟨List.replicate n none, List.replicate n ""⟩

/-- Write one reading into slot `i` (last write wins, as in the source). -/
def setSlot (dd : DayData) (i : Nat) (v : Dec) (q : String) : DayData :=
  ⟨dd.intervals.set i (some v), dd.quality.set i q⟩

/-- Bucket key `(nmi, suffix, date-code)`. -/
abbrev BucketKey := String × String × Nat

/-- The nested `data` mapping, flattened to an association list with unique
keys (first occurrence kept in creation order). -/
abbrev Bucket := List (BucketKey × DayData)

/-- Lookup of one `(nmi, suffix, date)` bucket. -/
def bucketFind (b : Bucket) (k : BucketKey) : Option DayData :=
  (b.find? (fun e => decide (e.1 = k))).map Prod.snd

/-- `data[nmi][suffix][date]['intervals'][i] = v` (creating the day through
the `defaultdict` when absent). -/
def bucketStore (n : Nat) (b : Bucket) (k : BucketKey) (i : Nat) (v : Dec)
    (q : String) : Bucket :=
  match b with
  | [] => [(k, setSlot (freshDay n) i v q)]
  | (k', dd) :: rest =>
    if k' = k then (k', setSlot dd i v q) :: rest
    else (k', dd) :: bucketStore n rest k i v q

/-- The immutable per-(nmi, suffix) metadata of `nmi_details`. -/
structure StreamDetails where
  suffix : String
  mdmStreamId : String
  serial : String
  uom : String
  intervalLength : Nat
  nextRead : String
deriving DecidableEq, Repr

/-- `nmi_details` flattened to an association list with unique keys. -/
abbrev DetailsMap := List ((String × String) × StreamDetails)

/-- First-seen wins: a later reading for a known `(nmi, suffix)` changes
nothing. -/
def detailsAdd (L : Nat) (ds : DetailsMap) (p : ProcessedReading) : DetailsMap :=
  if (ds.find? (fun e => decide (e.1 = (p.nmi, p.suffix)))).isSome then ds
  else
    ds ++ [((p.nmi, p.suffix),
      ⟨p.suffix, mdm_data_stream_id p.suffix.toList, p.device, DEFAULT_UOM, L, ""⟩)]

/-- The reader's accumulated state. -/
structure ConvState where
  bucket : Bucket
  details : DetailsMap
deriving DecidableEq, Repr

/-- Process one row into the state (skipped rows leave it unchanged). -/
def stepRow (L N : Nat) (st : ConvState) (r : Row) : ConvState :=
  match processRow L N r with
  | none => st
  | some p =>
    { bucket := bucketStore N st.bucket (p.nmi, p.suffix, p.dateCode)
        p.intervalIndex p.value p.quality
      details := detailsAdd L st.details p }

/-- The whole reading phase. -/
def runRows (L N : Nat) (rows : List Row) : ConvState :=
  rows.foldl (stepRow L N) ⟨[], []⟩

/-- One rendered slot: a present value keeps its recorded quality (or the
default when the recorded code is empty); an absent slot becomes `"0.000"`
with the substituted code `'S'`. -/
def renderOne (v : Option Dec) (q : String) : String × String :=
  match v with
  | some x => (format3 x, if q ≠ "" then q else DEFAULT_QUALITY)
  | none => ("0.000", "S")

/-- The writer's per-day loop over `enumerate(intervals)` with `qualities[i]`
(the two lists always have equal length in the program). -/
def renderSlots : List (Option Dec) → List String → List (String × String)
  | v :: vs, q :: qs => renderOne v q :: renderSlots vs qs
  | _, _ => []

/-- Day-record emission: skip the day when every slot is `None`; skip it as a
data-consistency fault when the rendered count differs from `n`; otherwise
the `300` record. -/
def emitDay (n dc : Nat) (dd : DayData) : Option (List String) :=
  if dd.intervals.all (fun v => v.isNone) then none
  else
    let slots := renderSlots dd.intervals dd.quality
    if slots.length ≠ n then none
    else some (["300", format_nem12_date dc] ++ slots.map Prod.fst ++
      [determine_day_quality (slots.map Prod.snd), "", "", ""])

/-- Python string order (lexicographic by code point). -/
def strLe (a b : String) : Prop := ¬ b < a

instance : DecidableRel strLe :=
  fun a b => inferInstanceAs (Decidable (¬ b < a))

/-- `sorted` over a dict's (unique) string keys. -/
def sortStrings (l : List String) : List String :=
  List.insertionSort strLe l.dedup

/-- `sorted` over a dict's (unique) date keys. -/
def sortNats (l : List Nat) : List Nat :=
  List.insertionSort (fun a b => a ≤ b) l.dedup

/-- The sorted date keys of `data[nmi][suffix]`. -/
def datesFor (b : Bucket) (m s : String) : List Nat :=
  sortNats (b.filterMap (fun e =>
    if e.1.1 = m ∧ e.1.2.1 = s then some e.1.2.2 else none))

/-- All `300` records the writer emits for one `(nmi, suffix)` stream. -/
def dayRecordsFor (n : Nat) (b : Bucket) (m s : String) : List (List String) :=
  (datesFor b m s).filterMap (fun dc => (bucketFind b (m, s, dc)).bind (emitDay n dc))

/-- The NMIConfiguration cap at 255 characters. -/
def truncate255 (s : String) : String :=
  if s.length > 255 then ⟨s.toList.take 255⟩ else s

/-- The writing phase: per sorted NMI, per sorted suffix, one `200` record
followed by that stream's day records; one `900` trailer. The `100` header
record holds the wall-clock timestamp and is outside the pure model. -/
def writer (n : Nat) (st : ConvState) : List (List String) :=
  let nmis := sortStrings (st.bucket.map (fun e => e.1.1))
  (nmis.flatMap (fun nmi =>
    let suffixes := sortStrings (st.details.filterMap (fun e =>
      if e.1.1 = nmi then some e.1.2 else none))
    let cfg := truncate255 (String.join suffixes)
    suffixes.flatMap (fun sfx =>
      let det := ((st.details.find? (fun e => decide (e.1 = (nmi, sfx)))).map
        Prod.snd).getD ⟨sfx, "INTERVAL", "", DEFAULT_UOM, 0, ""⟩
      (["200", nmi, cfg, "", det.suffix, det.mdmStreamId, det.serial, det.uom,
        natStr det.intervalLength, det.nextRead])
        :: dayRecordsFor n st.bucket nmi sfx)))
  ++ [["900"]]

/-- Outcome of one conversion run: `noData` models the
`"No valid data rows processed."` message with `sys.exit(0)` before any
output file is opened; `success` carries the emitted records. -/
inductive ConvertOutput where
  | noData : ConvertOutput
  | success : List (List String) → ConvertOutput
deriving DecidableEq, Repr

/-- `convert_agl_to_nem12` on already-read rows (the fatal header/file checks
precede this and abort the run). -/
def convert (L N : Nat) (rows : List Row) : ConvertOutput :=
  let st := runRows L N rows
  if st.bucket.isEmpty then ConvertOutput.noData
  else ConvertOutput.success (writer N st)

/-! ### Claim-side (specification) definitions

These definitions transcribe the wording of the specification claims, for
comparison against the source-side definitions above. -/

/-- The first code of the priority list present among the given codes, the
default when none is. -/
def firstPresentIn : List String → List String → String
  | [], _ => DEFAULT_QUALITY
  | c :: cs, qs => if c ∈ qs then c else firstPresentIn cs qs

/-- Day quality as claim C2 words it, with the claim set's own vocabulary
(C1 fixes substituted = `'S'`, estimate = `'E'`; final = `'F'`): priority
substituted > estimate > actual-estimate > final > defaulted. The exact
codes meant by the last two labels do not matter to the comparison: any
reading that puts substituted `'S'` foremost disagrees with the code on a
day carrying both `'N'` and `'S'`. -/
def claim_day_quality (interval_qualities : List String) : String :=
  let present := interval_qualities.filter (fun q => q != "")
  if present = [] then DEFAULT_QUALITY
  else firstPresentIn ["S", "E", "A", "F", "N"] present

/-- Row-skip condition as claim C3 words it: any required field missing or
empty (the numeric value field included), unparseable timestamp,
out-of-range slot, or no extractable suffix. -/
def claimRowSkip (L N : Nat) (r : Row) : Prop :=
  (r.nmi = none ∨ r.nmi = some "") ∨
  (r.registerCode = none ∨ r.registerCode = some "") ∨
  (r.startDate = none ∨ r.startDate = some "") ∨
  (r.profileReadValue = none ∨ r.profileReadValue = some "") ∨
  (r.qualityFlag = none ∨ r.qualityFlag = some "") ∨
  (r.deviceNumber = none ∨ r.deviceNumber = some "") ∨
  parse_agl_datetime (r.startDate.getD "") = none ∨
  (∃ dt, parse_agl_datetime (r.startDate.getD "") = some dt ∧
    get_interval_index dt L N = none) ∨
  get_suffix_from_register (r.registerCode.getD "").toList = none

/-- The canonical suffix pattern as claim C6 words it: one letter of
{E, B, V, Q, K, N}, case-insensitive, followed by one or more digits. -/
def specCanonicalPattern (sfx : List Char) : Bool :=
  match sfx with
  | c :: rest =>
    (['E', 'B', 'V', 'Q', 'K', 'N'].contains c.toUpper)
      && !rest.isEmpty && rest.all Char.isDigit
  | [] => false

/-- The classification table of claim C7, as a function of one (upper-cased)
leading character. -/
def charStreamKind (c : Char) : String :=
  if c = 'B' then "GENERATION"
  else if c = 'E' ∨ c = 'V' then "CONSUMPTION"
  else if c = 'Q' ∨ c = 'K' then "REACTIVE"
  else "INTERVAL"

/-- A rendered value with exactly three decimal places: everything after the
single final `'.'` is three digits. -/
def threeDecimals (s : String) : Prop :=
  ∃ ip fr : List Char, s.data = ip ++ '.' :: fr ∧ '.' ∉ ip ∧
    fr.length = 3 ∧ ∀ c ∈ fr, c.isDigit = true

/-! ### Concrete inputs used by witnesses and counterexamples -/

/-- The sample row of the spec's scenario (claim C8). -/
def sampleRow : Row :=
  { nmi := some "NMI123456", registerCode := some "E1#E1",
    startDate := some "01/06/2024 12:30:00 AM",
    profileReadValue := some "1.234", qualityFlag := some "A",
    deviceNumber := some "DEV1" }

/-- The sample row with an empty (but present) value cell (claim C3). -/
def rowEmptyValue : Row := { sampleRow with profileReadValue := some "" }

/-- The sample row with an unparseable value cell (claim C4). -/
def rowBadValue : Row := { sampleRow with profileReadValue := some "x2" }

/-- A row with every cell absent (claim C9's witness). -/
def rowBlank : Row := ⟨none, none, none, none, none, none⟩

/-- The reading the substitution path produces for `rowBadValue` (and for
`rowEmptyValue`): value 0.0, quality forced to `'N'`. -/
def pSubstituted : ProcessedReading :=
  { nmi := "NMI123456", suffix := "E1", isStandardPattern := true,
    dateCode := 20240601, intervalIndex := 1, value := Dec.zero,
    quality := "N", device := "DEV1" }

/-- A two-slot day with one reading (claim C1's witness). -/
def ddSmall : DayData := ⟨[some ⟨1234, 1000⟩, none], ["A", ""]⟩

/-- A one-day bucket holding `ddSmall` (claim C1's witness). -/
def bSmall : Bucket := [(("M", "E1", 20240601), ddSmall)]

/-- The day `sampleRow` produces in a 48-slot run (claim C10's witness). -/
def ddSample : DayData :=
  ⟨(List.replicate 48 (none : Option Dec)).set 1 (some ⟨1234, 1000⟩),
   (List.replicate 48 "").set 1 "A"⟩

/-! ### Digit-rendering lemmas -/

theorem natDigitsGo_congr :
    ∀ n f g, n < f → n < g → natDigitsGo f n = natDigitsGo g n := by
  intro n
  induction n using Nat.strong_induction_on with
  | _ n ih =>
    intro f g hf hg
    match f, g with
    | f' + 1, g' + 1 =>
      simp only [natDigitsGo]
      by_cases h : n < 10
      · simp [h]
      · simp only [h, if_false]
        have hd : n / 10 < n := Nat.div_lt_self (by omega) (by omega)
        rw [ih (n / 10) hd f' g' (by omega) (by omega)]

/-- The recursive description of `natDigits`. -/
theorem natDigits_eq (n : Nat) : natDigits n =
    if n < 10 then [Nat.digitChar n]
    else natDigits (n / 10) ++ [Nat.digitChar (n % 10)] := by
  by_cases h : n < 10
  · simp [natDigits, natDigitsGo, h]
  · have hd : n / 10 < n := Nat.div_lt_self (by omega) (by omega)
    have step : natDigits n = natDigitsGo n (n / 10) ++ [Nat.digitChar (n % 10)] := by
      simp only [natDigits, natDigitsGo, h, if_false]
    rw [step, if_neg h]
    unfold natDigits
    rw [natDigitsGo_congr (n / 10) n (n / 10 + 1) hd (by omega)]

theorem digitChar_isDigit {n : Nat} (h : n < 10) :
    (Nat.digitChar n).isDigit = true := by
  interval_cases n <;> decide

theorem natDigits_mem_isDigit :
    ∀ n, ∀ c ∈ natDigits n, c.isDigit = true := by
  intro n
  induction n using Nat.strong_induction_on with
  | _ n ih =>
    intro c hc
    rw [natDigits_eq] at hc
    by_cases h : n < 10
    · simp only [h, if_true, List.mem_singleton] at hc
      exact hc ▸ digitChar_isDigit h
    · simp only [h, if_false, List.mem_append, List.mem_singleton] at hc
      rcases hc with hc | hc
      · exact ih (n / 10) (Nat.div_lt_self (by omega) (by omega)) c hc
      · exact hc ▸ digitChar_isDigit (Nat.mod_lt n (by omega))

theorem natDigits_length_le :
    ∀ k n, n < 10 ^ k → 0 < k → (natDigits n).length ≤ k := by
  intro k
  induction k with
  | zero => intro n _ hk; omega
  | succ k ih =>
    intro n hn _
    rw [natDigits_eq]
    by_cases h : n < 10
    · simp [h]
    · simp only [h, if_false, List.length_append, List.length_singleton]
      have hk : 0 < k := by
        rcases Nat.eq_zero_or_pos k with hk0 | hk0
        · subst hk0; simp at hn; omega
        · exact hk0
      have h1 : n / 10 < 10 ^ k := by
        rw [Nat.div_lt_iff_lt_mul (by omega : 0 < 10)]
        calc n < 10 ^ (k + 1) := hn
          _ = 10 ^ k * 10 := by rw [Nat.pow_succ]
      have := ih (n / 10) h1 hk
      omega

theorem padLeftZeros_length {k : Nat} {l : List Char} (h : l.length ≤ k) :
    (padLeftZeros k l).length = k := by
  simp [padLeftZeros]
  omega

/-- Strings of the shape `sign ++ integer-digits ++ '.' ++ fraction` with a
three-digit fraction satisfy `threeDecimals`. -/
theorem threeDecimals_of (sign ipart fr : List Char)
    (hsign : ∀ c ∈ sign, c = '-') (hip : ∀ c ∈ ipart, c.isDigit = true)
    (hfr : fr.length = 3) (hfd : ∀ c ∈ fr, c.isDigit = true) :
    threeDecimals ⟨sign ++ ipart ++ '.' :: fr⟩ := by
  refine ⟨sign ++ ipart, fr, rfl, ?_, hfr, hfd⟩
  intro hmem
  rcases List.mem_append.mp hmem with hs | hd
  · exact absurd (hsign '.' hs) (by decide)
  · have := hip '.' hd
    simp at this

/-- Every `format3` rendering has exactly three digits after the point. -/
theorem format3_threeDecimals (d : Dec) : threeDecimals (format3 d) := by
  simp only [format3]
  apply threeDecimals_of
  · intro c hc
    simp at hc
    exact hc.2
  · exact natDigits_mem_isDigit _
  · apply padLeftZeros_length
    apply natDigits_length_le 3
    · calc _ % 1000 < 1000 := Nat.mod_lt _ (by omega)
        _ ≤ 10 ^ 3 := by norm_num
    · omega
  · intro c hc
    rcases List.mem_append.mp hc with hr | hd
    · have := List.eq_of_mem_replicate hr
      subst this; decide
    · exact natDigits_mem_isDigit _ c hd

/-! ### Day-quality lemmas -/

/-- `determine_day_quality` as a function of plain memberships in the input
list: the filter to non-empty codes only matters for the default case. -/
theorem determine_day_quality_eq (qs : List String) :
    determine_day_quality qs =
      if ∀ q ∈ qs, q = "" then DEFAULT_QUALITY
      else if "N" ∈ qs then "N"
      else if "S" ∈ qs then "S"
      else if "E" ∈ qs then "E"
      else if "F" ∈ qs then "F"
      else if "A" ∈ qs then "A"
      else DEFAULT_QUALITY := by
  simp only [determine_day_quality]
  have hfil : ∀ c : String, c ≠ "" →
      ((c ∈ qs.filter (fun q => q != "")) ↔ c ∈ qs) := by
    intro c hc
    simp [List.mem_filter, hc]
  have hempty : (qs.filter (fun q => q != "") = []) ↔ ∀ q ∈ qs, q = "" := by
    rw [List.filter_eq_nil_iff]
    simp
  by_cases h0 : ∀ q ∈ qs, q = ""
  · rw [if_pos (hempty.mpr h0), if_pos h0]
  · rw [if_neg (fun hh => h0 (hempty.mp hh)), if_neg h0]
    by_cases hN : "N" ∈ qs
    · rw [if_pos ((hfil "N" (by decide)).mpr hN), if_pos hN]
    · rw [if_neg (fun hh => hN ((hfil "N" (by decide)).mp hh)), if_neg hN]
      by_cases hS : "S" ∈ qs
      · rw [if_pos ((hfil "S" (by decide)).mpr hS), if_pos hS]
      · rw [if_neg (fun hh => hS ((hfil "S" (by decide)).mp hh)), if_neg hS]
        by_cases hE : "E" ∈ qs
        · rw [if_pos ((hfil "E" (by decide)).mpr hE), if_pos hE]
        · rw [if_neg (fun hh => hE ((hfil "E" (by decide)).mp hh)), if_neg hE]
          by_cases hF : "F" ∈ qs
          · rw [if_pos ((hfil "F" (by decide)).mpr hF), if_pos hF]
          · rw [if_neg (fun hh => hF ((hfil "F" (by decide)).mp hh)), if_neg hF]
            by_cases hA : "A" ∈ qs
            · rw [if_pos ((hfil "A" (by decide)).mpr hA), if_pos hA]
            · rw [if_neg (fun hh => hA ((hfil "A" (by decide)).mp hh)), if_neg hA]

/-- C2, corrected: the day-level aggregate code equals the first code of the
fixed priority order `'N' > 'S' > 'E' > 'F' > 'A'` present among the
per-interval codes; it depends only on which distinct non-empty codes occur
(never on how many intervals carry each); when no interval has any code it is
the global default `DEFAULT_QUALITY`. -/
theorem day_quality_aggregate_law :
    (∀ qs qs' : List String,
      (∀ c : String, c ≠ "" → ((c ∈ qs) ↔ (c ∈ qs'))) →
      determine_day_quality qs = determine_day_quality qs') ∧
    (∀ qs : List String, (∀ q ∈ qs, q = "") →
      determine_day_quality qs = DEFAULT_QUALITY) ∧
    (∀ qs : List String, (∃ c ∈ qs, c ≠ "") →
      determine_day_quality qs = firstPresentIn ["N", "S", "E", "F", "A"] qs) := by
  refine ⟨?_, ?_, ?_⟩
  · intro qs qs' h
    rw [determine_day_quality_eq, determine_day_quality_eq]
    have hiffE : (∀ q ∈ qs, q = "") ↔ (∀ q ∈ qs', q = "") := by
      constructor
      · intro hall q hq
        by_contra hne
        exact hne (hall q ((h q hne).mpr hq))
      · intro hall q hq
        by_contra hne
        exact hne (hall q ((h q hne).mp hq))
    simp only [propext hiffE, propext (h "N" (by decide)),
      propext (h "S" (by decide)), propext (h "E" (by decide)),
      propext (h "F" (by decide)), propext (h "A" (by decide))]
  · intro qs h
    rw [determine_day_quality_eq, if_pos h]
  · intro qs hex
    have h0 : ¬ ∀ q ∈ qs, q = "" := by
      rcases hex with ⟨c, hc, hcne⟩
      exact fun hall => hcne (hall c hc)
    rw [determine_day_quality_eq, if_neg h0]
    simp only [firstPresentIn]

/-- C2 counterexample: a day carrying both the suspect code `'N'` and the
substituted code `'S'` aggregates to `'N'` under the code's priority order,
while the claim's order (substituted `'S'` foremost) demands `'S'`. -/
theorem day_quality_counterexample :
    determine_day_quality ["N", "S"] = "N" ∧
    claim_day_quality ["N", "S"] = "S" ∧ ("N" : String) ≠ "S" := by
  refine ⟨by decide, by decide, by decide⟩

/-! ### Row-level reader theorems -/

/-- C3, corrected: a row is skipped exactly when a required field fails the
truthiness guard (for the numeric value field only an absent cell fails it —
an empty one is kept and substituted), the timestamp does not parse, the
computed slot is out of range, or no suffix can be extracted; nothing else
skips a row. -/
theorem row_skip_characterisation (L N : Nat) (r : Row) :
    processRow L N r = none ↔
      (requiredFieldsOk r = false ∨
       parse_agl_datetime (r.startDate.getD "") = none ∨
       (∃ dt, parse_agl_datetime (r.startDate.getD "") = some dt ∧
         get_interval_index dt L N = none) ∨
       get_suffix_from_register (r.registerCode.getD "").toList = none) := by
  unfold processRow
  by_cases hreq : requiredFieldsOk r
  · cases hp : parse_agl_datetime (r.startDate.getD "") with
    | none => simp [hreq, hp]
    | some dt =>
      cases hi : get_interval_index dt L N with
      | none => simp [hreq, hp, hi]
      | some idx =>
        cases hs : get_suffix_from_register (r.registerCode.getD "").toList with
        | none => simp [hreq, hp, hi, hs]
        | some pr => simp [hreq, hp, hi, hs]
  · have hreq' : requiredFieldsOk r = false := by simpa using hreq
    simp [hreq']

/-- C3 counterexample: `rowEmptyValue` has an empty (present) value cell, so
the claim's wording counts it as skipped, but the code keeps the row through
the substitution path (value 0.0, quality `'N'`). -/
theorem row_skip_counterexample :
    claimRowSkip 30 48 rowEmptyValue ∧
    processRow 30 48 rowEmptyValue = some pSubstituted := by
  constructor
  · exact Or.inr (Or.inr (Or.inr (Or.inl (Or.inr rfl))))
  · decide

/-- C4: a row surviving the other checks whose value cell does not parse as a
number is not discarded: value 0.0 and quality forced to the suspect marker
`'N'`, whatever the row's quality flag was. -/
theorem value_substitution (L N : Nat) (r : Row) (p : ProcessedReading)
    (hp : processRow L N r = some p)
    (hv : parseFloat (r.profileReadValue.getD "") = none) :
    p.value = Dec.zero ∧ p.quality = "N" := by
  unfold processRow at hp
  split at hp
  · exact absurd hp (by simp)
  split at hp
  · exact absurd hp (by simp)
  split at hp
  · exact absurd hp (by simp)
  split at hp
  · exact absurd hp (by simp)
  injection hp with h
  subst h
  simp [hv]

/-- C4 witness: the substitution at the concrete row `rowBadValue`. -/
theorem value_substitution_witness :
    pSubstituted.value = Dec.zero ∧ pSubstituted.quality = "N" :=
  value_substitution 30 48 rowBadValue pSubstituted (by decide) (by decide)

/-- C5: the fixed quality lookup maps the flags of the table to themselves
and everything else — a missing (empty) flag included — to the estimate
default `'E'`; on every kept row with a parseable value the recorded slot
quality is exactly this lookup of the row's flag. -/
theorem quality_mapping_law :
    (∀ q : String, lookupQuality q =
      if q = "A" ∨ q = "F" ∨ q = "E" ∨ q = "S" ∨ q = "N" then q
      else DEFAULT_QUALITY) ∧
    lookupQuality "" = DEFAULT_QUALITY ∧
    (∀ (L N : Nat) (r : Row) (p : ProcessedReading) (v : Dec),
      processRow L N r = some p →
      parseFloat (r.profileReadValue.getD "") = some v →
      p.quality = lookupQuality (r.qualityFlag.getD "")) := by
  refine ⟨?_, by decide, ?_⟩
  · intro q
    by_cases h1 : q = "A"
    · subst h1; decide
    by_cases h2 : q = "F"
    · subst h2; decide
    by_cases h3 : q = "E"
    · subst h3; decide
    by_cases h4 : q = "S"
    · subst h4; decide
    by_cases h5 : q = "N"
    · subst h5; decide
    simp [lookupQuality, QUALITY_MAP, List.lookup, h1, h2, h3, h4, h5,
      beq_eq_false_iff_ne.mpr h1, beq_eq_false_iff_ne.mpr h2,
      beq_eq_false_iff_ne.mpr h3, beq_eq_false_iff_ne.mpr h4,
      beq_eq_false_iff_ne.mpr h5]
  · intro L N r p v hp hv
    unfold processRow at hp
    split at hp
    · exact absurd hp (by simp)
    split at hp
    · exact absurd hp (by simp)
    split at hp
    · exact absurd hp (by simp)
    split at hp
    · exact absurd hp (by simp)
    injection hp with h
    subst h
    simp [hv]

/-! ### Suffix extraction and stream classification -/

/-- C6 (code-bug evidence): the suffix is the substring after the last `'#'`
and non-canonical suffixes are still accepted, but the canonical-pattern
check is not case-insensitive: the regex class `[EBVQKNeqvkn]` has no
lowercase `b`, so `"b1"` is flagged non-standard while the claimed pattern
(one of {E,B,V,Q,K,N}, case-insensitive, then digits) accepts it; upper-case
`"B1"` is standard. -/
theorem suffix_pattern_divergence :
    get_suffix_from_register "X#b1".toList = some ("b1".toList, false) ∧
    specCanonicalPattern "b1".toList = true ∧
    get_suffix_from_register "X#B1".toList = some ("B1".toList, true) ∧
    afterLastHash "a#b#E2".toList = "E2".toList := by
  refine ⟨by decide, by decide, by decide, by decide⟩

/-- C7: stream classification is a pure function of the suffix's first
character, case-insensitive, following the fixed table (`'B'` → generation;
`'E'`/`'V'` → consumption; `'Q'`/`'K'` → reactive; anything else → the
generic interval stream). -/
theorem stream_kind_of_first_char (sfx : List Char) (h : sfx ≠ []) :
    mdm_data_stream_id sfx = charStreamKind (sfx.headD ' ').toUpper := by
  cases sfx with
  | nil => exact absurd rfl h
  | cons c cs =>
    simp only [mdm_data_stream_id, List.map_cons, List.headD_cons,
      listStartsWith, Bool.and_true]
    unfold charStreamKind
    by_cases hB : c.toUpper = 'B'
    · simp [hB]
    by_cases hE : c.toUpper = 'E'
    · simp [hE]
    by_cases hV : c.toUpper = 'V'
    · simp [hV]
    by_cases hQ : c.toUpper = 'Q'
    · simp [hQ]
    by_cases hK : c.toUpper = 'K'
    · simp [hK]
    simp [hB, hE, hV, hQ, hK,
      beq_eq_false_iff_ne.mpr (fun hh => hB hh.symm),
      beq_eq_false_iff_ne.mpr (fun hh => hE hh.symm),
      beq_eq_false_iff_ne.mpr (fun hh => hV hh.symm),
      beq_eq_false_iff_ne.mpr (fun hh => hQ hh.symm),
      beq_eq_false_iff_ne.mpr (fun hh => hK hh.symm)]

/-- C7 witness: the classification at the concrete suffix `"v2"`. -/
theorem stream_kind_of_first_char_witness :
    mdm_data_stream_id "v2".toList = "CONSUMPTION" := by
  have h := stream_kind_of_first_char "v2".toList (by decide)
  rw [h]
  decide

/-! ### Whole-run theorems -/

/-- A run whose rows are all skipped leaves the reader state untouched. -/
theorem foldl_stepRow_of_skipped (L N : Nat) :
    ∀ (rows : List Row) (st : ConvState),
      (∀ r ∈ rows, processRow L N r = none) →
      rows.foldl (stepRow L N) st = st := by
  intro rows
  induction rows with
  | nil => intro st _; rfl
  | cons r rs ih =>
    intro st h
    have hr : processRow L N r = none := h r (List.mem_cons_self r rs)
    have hstep : stepRow L N st r = st := by simp [stepRow, hr]
    rw [List.foldl_cons, hstep]
    exact ih st (fun x hx => h x (List.mem_cons_of_mem r hx))

/-- C9: with zero valid data rows the run is a no-op success — the
`noData` outcome (the "No valid data rows processed." message and
`sys.exit(0)` before any output file is opened). -/
theorem no_valid_rows_noop (L N : Nat) (rows : List Row)
    (h : ∀ r ∈ rows, processRow L N r = none) :
    convert L N rows = ConvertOutput.noData := by
  have hrun : runRows L N rows = ⟨[], []⟩ := by
    unfold runRows
    exact foldl_stepRow_of_skipped L N rows ⟨[], []⟩ h
  simp [convert, hrun]

/-- C9 witness: a run over one all-blank row. -/
theorem no_valid_rows_noop_witness :
    convert 30 48 [rowBlank] = ConvertOutput.noData :=
  no_valid_rows_noop 30 48 [rowBlank] (by decide)

/-- C8 counterexample: on the spec's sample scenario the emitted day record
carries the day-level quality `"S"`, not the claimed `"A"` — the 47 gap
slots are rendered with substituted quality `'S'`, which outranks `'A'` in
the aggregation. -/
theorem sample_scenario_counterexample :
    convert 30 48 [sampleRow] = ConvertOutput.success
      [["200", "NMI123456", "E1", "", "E1", "CONSUMPTION", "DEV1", "kWh", "30", ""],
       ["300", "20240601", "0.000", "1.234"] ++ List.replicate 46 "0.000" ++
         ["S", "", "", ""],
       ["900"]] ∧
    ("S" : String) ≠ "A" := by
  refine ⟨by decide, by decide⟩

/-- C8, amended: the sample reading lands in slot 1 of day 2024-06-01 for
suffix `"E1"` with value 1.234 and per-interval quality `"A"`, and the day
record begins `300,20240601,0.000,1.234` followed by 46 further `"0.000"`
slots — but with day-level quality `"S"` (the gap slots' substituted quality
outranks `'A'`). -/
theorem sample_scenario_amended :
    bucketFind ((runRows 30 48 [sampleRow]).bucket)
        ("NMI123456", "E1", 20240601) = some ddSample ∧
    ddSample.intervals[1]? = some (some ⟨1234, 1000⟩) ∧
    ddSample.quality[1]? = some "A" ∧
    convert 30 48 [sampleRow] = ConvertOutput.success
      [["200", "NMI123456", "E1", "", "E1", "CONSUMPTION", "DEV1", "kWh", "30", ""],
       ["300", "20240601", "0.000", "1.234"] ++ List.replicate 46 "0.000" ++
         ["S", "", "", ""],
       ["900"]] := by
  refine ⟨by decide, by decide, by decide, by decide⟩

/-! ### Day-emission and bucket-invariant lemmas -/

theorem renderSlots_length :
    ∀ (vs : List (Option Dec)) (qs : List String), vs.length = qs.length →
      (renderSlots vs qs).length = vs.length := by
  intro vs
  induction vs with
  | nil => intro qs _; cases qs <;> rfl
  | cons v vs ih =>
    intro qs h
    cases qs with
    | nil => simp at h
    | cons q qs' => simp [renderSlots, ih qs' (by simpa using h)]

theorem renderSlots_getElem? :
    ∀ (vs : List (Option Dec)) (qs : List String) (i : Nat) (v : Option Dec)
      (q : String), vs[i]? = some v → qs[i]? = some q →
      (renderSlots vs qs)[i]? = some (renderOne v q) := by
  intro vs
  induction vs with
  | nil => intro qs i v q hv _; simp at hv
  | cons v' vs ih =>
    intro qs i v q hv hq
    cases qs with
    | nil => cases i <;> simp [renderSlots] at hq
    | cons q' qs' =>
      cases i with
      | zero =>
        simp only [List.getElem?_cons_zero, Option.some.injEq] at hv hq
        subst hv; subst hq
        simp [renderSlots]
      | succ n =>
        simp only [List.getElem?_cons_succ] at hv hq
        simpa [renderSlots] using ih qs' n v q hv hq

/-- A positive bucket lookup is a membership with exactly that key. -/
theorem bucketFind_some_mem {b : Bucket} {k : BucketKey} {dd : DayData}
    (hfind : bucketFind b k = some dd) : (k, dd) ∈ b := by
  unfold bucketFind at hfind
  cases hf : b.find? (fun e => decide (e.1 = k)) with
  | none => rw [hf] at hfind; simp at hfind
  | some e =>
    rw [hf] at hfind
    have he : e ∈ b := List.mem_of_find?_eq_some hf
    have hp := List.find?_some hf
    have hkey : e.1 = k := by simpa using hp
    have hdd : e.2 = dd := by simpa using hfind
    obtain ⟨e1, e2⟩ := e
    simp only at hkey hdd
    subst hkey; subst hdd
    exact he

/-- The writer visits each date of a stream exactly once: the sorted date
list counts a stored date once. -/
theorem datesFor_count_one (b : Bucket) (m s : String) (dc : Nat)
    (dd : DayData) (hfind : bucketFind b (m, s, dc) = some dd) :
    (datesFor b m s).count dc = 1 := by
  have hmem := bucketFind_some_mem hfind
  have hmem2 : dc ∈ b.filterMap (fun e =>
      if e.1.1 = m ∧ e.1.2.1 = s then some e.1.2.2 else none) := by
    refine List.mem_filterMap.mpr ⟨((m, s, dc), dd), hmem, ?_⟩
    simp
  unfold datesFor sortNats
  have hperm := List.perm_insertionSort (fun a b : Nat => a ≤ b)
    (b.filterMap (fun e =>
      if e.1.1 = m ∧ e.1.2.1 = s then some e.1.2.2 else none)).dedup
  have hnodup := hperm.nodup_iff.mpr (List.nodup_dedup _)
  have hm := hperm.mem_iff.mpr (List.mem_dedup.mpr hmem2)
  exact List.count_eq_one_of_mem hnodup hm

theorem all_isNone_false_of_exists {l : List (Option Dec)}
    (hex : ∃ v ∈ l, v ≠ none) : l.all (fun v => v.isNone) = false := by
  rcases hex with ⟨v, hv, hvne⟩
  cases hba : l.all (fun v => v.isNone) with
  | false => rfl
  | true =>
    rw [List.all_eq_true] at hba
    exact absurd (Option.isNone_iff_eq_none.mp (hba v hv)) hvne

/-- C1: a stored day appears exactly once in the writer's date traversal;
when every slot is unfilled the emission is `none` (no `300` record for that
day); when at least one slot is filled, the emission is the one `300` record
whose slot list renders all `N` positions — a filled slot `i` as its value
to exactly three decimal places paired with its recorded quality code (the
default only if the recorded code were empty), an unfilled slot as the
literal `"0.000"` with the fixed substituted code `'S'` (distinct from the
estimate default `'E'`). -/
theorem day_emission_law (N dc : Nat) (b : Bucket) (m s : String)
    (dd : DayData) (hfind : bucketFind b (m, s, dc) = some dd)
    (hvl : dd.intervals.length = N) (hql : dd.quality.length = N) :
    (datesFor b m s).count dc = 1 ∧
    ((∀ v ∈ dd.intervals, v = none) → emitDay N dc dd = none) ∧
    ((∃ v ∈ dd.intervals, v ≠ none) →
      ∃ slots : List (String × String),
        emitDay N dc dd =
          some (["300", format_nem12_date dc] ++ slots.map Prod.fst ++
            [determine_day_quality (slots.map Prod.snd), "", "", ""]) ∧
        slots.length = N ∧
        (∀ (i : Nat) (v : Dec) (q : String),
          dd.intervals[i]? = some (some v) → dd.quality[i]? = some q →
          slots[i]? = some (format3 v,
            if q ≠ "" then q else DEFAULT_QUALITY) ∧
          threeDecimals (format3 v)) ∧
        (∀ i : Nat, dd.intervals[i]? = some none →
          slots[i]? = some ("0.000", "S"))) := by
  refine ⟨datesFor_count_one b m s dc dd hfind, ?_, ?_⟩
  · intro hall
    have hb : dd.intervals.all (fun v => v.isNone) = true := by
      rw [List.all_eq_true]
      intro x hx
      exact Option.isNone_iff_eq_none.mpr (hall x hx)
    simp [emitDay, hb]
  · intro hex
    have hb := all_isNone_false_of_exists hex
    have hslen : (renderSlots dd.intervals dd.quality).length = N := by
      rw [renderSlots_length dd.intervals dd.quality (hvl.trans hql.symm), hvl]
    refine ⟨renderSlots dd.intervals dd.quality, ?_, hslen, ?_, ?_⟩
    · simp [emitDay, hb, hslen]
    · intro i v q hv hq
      refine ⟨?_, format3_threeDecimals v⟩
      have := renderSlots_getElem? dd.intervals dd.quality i (some v) q hv hq
      simpa [renderOne] using this
    · intro i hv
      have hi : i < dd.intervals.length := by
        by_contra hge
        rw [List.getElem?_eq_none (by omega)] at hv
        cases hv
      have hi' : i < dd.quality.length := by
        rw [hql]
        rw [hvl] at hi
        exact hi
      have hq : dd.quality[i]? = some dd.quality[i] :=
        List.getElem?_eq_getElem hi'
      have := renderSlots_getElem? dd.intervals dd.quality i none
        (dd.quality[i]) hv hq
      simpa [renderOne] using this

/-- C1 witness: the emission facts at the concrete two-slot day `ddSmall`
inside the one-day bucket `bSmall`. -/
theorem day_emission_law_witness :
    (datesFor bSmall "M" "E1").count 20240601 = 1 ∧
    ((∀ v ∈ ddSmall.intervals, v = none) → emitDay 2 20240601 ddSmall = none) ∧
    ((∃ v ∈ ddSmall.intervals, v ≠ none) →
      ∃ slots : List (String × String),
        emitDay 2 20240601 ddSmall =
          some (["300", format_nem12_date 20240601] ++ slots.map Prod.fst ++
            [determine_day_quality (slots.map Prod.snd), "", "", ""]) ∧
        slots.length = 2 ∧
        (∀ (i : Nat) (v : Dec) (q : String),
          ddSmall.intervals[i]? = some (some v) →
          ddSmall.quality[i]? = some q →
          slots[i]? = some (format3 v,
            if q ≠ "" then q else DEFAULT_QUALITY) ∧
          threeDecimals (format3 v)) ∧
        (∀ i : Nat, ddSmall.intervals[i]? = some none →
          slots[i]? = some ("0.000", "S"))) :=
  day_emission_law 2 20240601 bSmall "M" "E1" ddSmall (by decide)
    (by decide) (by decide)

theorem bucketStore_inv (n : Nat) :
    ∀ (b : Bucket) (k : BucketKey) (i : Nat) (v : Dec) (q : String),
      (∀ e ∈ b, e.2.intervals.length = n ∧ e.2.quality.length = n) →
      ∀ e ∈ bucketStore n b k i v q,
        e.2.intervals.length = n ∧ e.2.quality.length = n := by
  intro b
  induction b with
  | nil =>
    intro k i v q _ e he
    simp only [bucketStore, List.mem_singleton] at he
    subst he
    simp [setSlot, freshDay]
  | cons hd tl ih =>
    intro k i v q hinv e he
    obtain ⟨k', dd⟩ := hd
    simp only [bucketStore] at he
    by_cases hk : k' = k
    · rw [if_pos hk] at he
      rcases List.mem_cons.mp he with he | he
      · subst he
        have := hinv (k', dd) (List.mem_cons_self _ _)
        simpa [setSlot] using this
      · exact hinv e (List.mem_cons_of_mem _ he)
    · rw [if_neg hk] at he
      rcases List.mem_cons.mp he with he | he
      · subst he
        exact hinv (k', dd) (List.mem_cons_self _ _)
      · exact ih k i v q (fun x hx => hinv x (List.mem_cons_of_mem _ hx)) e he

theorem runRows_inv (L N : Nat) (rows : List Row) :
    ∀ e ∈ (runRows L N rows).bucket,
      e.2.intervals.length = N ∧ e.2.quality.length = N := by
  suffices h : ∀ (rs : List Row) (st : ConvState),
      (∀ e ∈ st.bucket, e.2.intervals.length = N ∧ e.2.quality.length = N) →
      ∀ e ∈ (rs.foldl (stepRow L N) st).bucket,
        e.2.intervals.length = N ∧ e.2.quality.length = N by
    exact h rows ⟨[], []⟩ (by simp)
  intro rs
  induction rs with
  | nil => intro st h; exact h
  | cons r rs' ih =>
    intro st h
    rw [List.foldl_cons]
    apply ih
    unfold stepRow
    cases hp : processRow L N r with
    | none => exact h
    | some p => exact bucketStore_inv N st.bucket _ _ _ _ h

/-- C10: every bucket day array keeps length `N` from creation through
writing, so the rendered slot list always has exactly `N` entries and the
writer's data-consistency branch (report and skip the day) never fires: a
day with at least one populated slot is never dropped by that check. -/
theorem day_consistency_check_unreachable (L N : Nat) (rows : List Row)
    (k : BucketKey) (dd : DayData)
    (hfind : bucketFind ((runRows L N rows).bucket) k = some dd) :
    dd.intervals.length = N ∧ dd.quality.length = N ∧
    (renderSlots dd.intervals dd.quality).length = N ∧
    ((∃ v ∈ dd.intervals, v ≠ none) → emitDay N k.2.2 dd ≠ none) := by
  have hmem := bucketFind_some_mem hfind
  obtain ⟨h1, h2⟩ := runRows_inv L N rows (k, dd) hmem
  have h3 : (renderSlots dd.intervals dd.quality).length = N := by
    rw [renderSlots_length dd.intervals dd.quality (h1.trans h2.symm), h1]
  refine ⟨h1, h2, h3, ?_⟩
  intro hex hnone
  simp [emitDay, all_isNone_false_of_exists hex, h3] at hnone

/-- C10 witness: the invariant at the day the sample run stores. -/
theorem day_consistency_check_unreachable_witness :
    ddSample.intervals.length = 48 ∧ ddSample.quality.length = 48 ∧
    (renderSlots ddSample.intervals ddSample.quality).length = 48 ∧
    ((∃ v ∈ ddSample.intervals, v ≠ none) →
      emitDay 48 20240601 ddSample ≠ none) :=
  day_consistency_check_unreachable 30 48 [sampleRow]
    ("NMI123456", "E1", 20240601) ddSample (by decide)

end AglToNem12
